import Mathlib

/-!
Verification of the mmv batch-rename tool.

Strings are embedded as `List Char`.  The template interpolator
(`pattern.rs`), the wildcard file matcher (`operations/file_matcher.rs`)
and the batch mover (`operations/file_move.rs`) are embedded as pure
Lean functions; filesystem state is passed explicitly.
-/

/-- Error type of the application, from `errors.rs`.  The two variants that
carry an `io::Error` payload in the source carry no payload here, since an
OS error value has no shallow embedding. -/
inductive MassMoveError where
  | InvalidSourcePath (msg : List Char)
  | InvalidTargetPath (msg : List Char)
  | DirectoryNotFound (path : List Char)
  | PermissionDenied
  | NoFilesForPattern (pat : List Char)
  | FileAlreadyExists (path : List Char)
  | MoveError (path : List Char)
  | Error
  deriving DecidableEq

/-- Embedding of `insert_match_in_filename` from `pattern.rs` lines 7-20.
The source indexes `caps[i - 1]` under the guard `i != 0 && i <= caps.len()`,
so the `getD` default is unreachable; the error message is the rendering of
`format!("position #{i} not exist in source path")`. -/
def insert_match_in_filename (caps : List (List Char)) (filename : List Char)
    (i : Nat) : Except MassMoveError (List Char) :=
  if i ≠ 0 ∧ i ≤ caps.length then
    Except.ok (filename ++ caps.getD (i - 1) [])
  else
    Except.error (MassMoveError.InvalidTargetPath
      ("position #".data ++ (Nat.repr i).data ++ " not exist in source path".data))

/-- Embedding of the character loop of `insert_matches_in_target`
(`pattern.rs` lines 39-70).  Arguments mirror the Rust loop state:
the remaining pattern characters, `new_filename`, `is_matching`, `match_index`.
The `[]` case is the code after the loop (lines 68-72). -/
def insert_go (caps : List (List Char)) :
    List Char → List Char → Bool → Nat → Except MassMoveError (List Char)
  | [], acc, is_matching, idx =>
    if is_matching = true then insert_match_in_filename caps acc idx
    else Except.ok acc
  | ch :: rest, acc, is_matching, idx =>
    if ch ≠ '#' ∧ is_matching = false then
      insert_go caps rest (acc ++ [ch]) is_matching idx
    else if is_matching = true ∧ ch.isDigit = true then
      insert_go caps rest acc is_matching (idx * 10 + (ch.toNat - 48))
    else if ch = '#' then
      if is_matching = true then
        match insert_match_in_filename caps acc idx with
        | Except.ok acc2 => insert_go caps rest acc2 true 0
        | Except.error e => Except.error e
      else
        insert_go caps rest acc true 0
    else
      if is_matching = true then
        match insert_match_in_filename caps acc idx with
        | Except.ok acc2 => insert_go caps rest (acc2 ++ [ch]) false 0
        | Except.error e => Except.error e
      else
        insert_go caps rest (acc ++ [ch]) false 0

/-- Embedding of `insert_matches_in_target` from `pattern.rs` lines 30-73. -/
def insert_matches_in_target (caps : List (List Char)) (pattern : List Char) :
    Except MassMoveError (List Char) :=
  insert_go caps pattern [] false 0

/-- Template token: a target template is literal characters plus positional
placeholder tokens `#<digits>`.  Used to state which template strings the
substitution claim quantifies over. -/
inductive Tok where
  | lit (ch : Char)
  | ph (i : Nat)
  deriving DecidableEq

/-- Decimal rendering of a natural number, most significant digit first. -/
def decimalChars (i : Nat) : List Char := ((Nat.digits 10 i).reverse).map Nat.digitChar

/-- Render one token back into template text: a literal is itself, a
placeholder `#i` is the marker followed by the decimal digits of `i`. -/
def renderTok : Tok → List Char
  | Tok.lit ch => [ch]
  | Tok.ph i => '#' :: decimalChars i

def renderTemplate (ts : List Tok) : List Char := (ts.map renderTok).flatten

/-- Pure textual substitution of one token: a literal stays, a placeholder
`#i` becomes the 1-indexed capture `c[i-1]`. -/
def substTok (c : List (List Char)) : Tok → List Char
  | Tok.lit ch => [ch]
  | Tok.ph i => c.getD (i - 1) []

def substTemplate (c : List (List Char)) (ts : List Tok) : List Char :=
  (ts.map (substTok c)).flatten

/-- Well-formedness of one token against `n` captures: a literal is not the
placeholder marker, a placeholder index lies in `1..n`. -/
def tokOK (n : Nat) : Tok → Bool
  | Tok.lit ch => decide (ch ≠ '#')
  | Tok.ph i => decide (1 ≤ i) && decide (i ≤ n)

def phIndex : Tok → Option Nat
  | Tok.lit _ => none
  | Tok.ph i => some i

/-- No literal decimal digit directly follows a placeholder token: such a
digit would be absorbed into the placeholder index by the scanner, so the
token list would not render to a template containing those tokens. -/
def noDigitAfterPh : List Tok → Bool
  | [] => true
  | Tok.lit _ :: rest => noDigitAfterPh rest
  | [Tok.ph _] => true
  | Tok.ph _ :: Tok.lit ch :: rest => !ch.isDigit && noDigitAfterPh (Tok.lit ch :: rest)
  | Tok.ph _ :: Tok.ph j :: rest => noDigitAfterPh (Tok.ph j :: rest)

/-- A template made of placeholders `#1..#n`, each used at most once, plus
literal characters. -/
def WFTemplate (n : Nat) (ts : List Tok) : Prop :=
  (∀ t ∈ ts, tokOK n t = true) ∧ (ts.filterMap phIndex).Nodup ∧
    noDigitAfterPh ts = true

/-- Scanner state of the template interpolator: accumulated output, the
in-placeholder flag, and the accumulated numeric index. -/
structure ScanState where
  out : List Char
  inPh : Bool
  idx : Nat

/-- Modelled from the spec: rules 1-4 of the template scan, tried in the
spec's priority order for one character.  Rule 4 leaves the accumulated
index untouched, as the spec's wording does not reset it there. -/
def specStep (caps : List (List Char)) (st : ScanState) (ch : Char) :
    Except MassMoveError ScanState :=
  if st.inPh = false ∧ ch ≠ '#' then
    Except.ok { st with out := st.out ++ [ch] }
  else if st.inPh = true ∧ ch.isDigit = true then
    Except.ok { st with idx := st.idx * 10 + (ch.toNat - 48) }
  else if ch = '#' then
    if st.inPh = true then
      match insert_match_in_filename caps st.out st.idx with
      | Except.ok o => Except.ok { out := o, inPh := true, idx := 0 }
      | Except.error e => Except.error e
    else
      Except.ok { st with inPh := true, idx := 0 }
  else
    match insert_match_in_filename caps st.out st.idx with
    | Except.ok o => Except.ok { out := o ++ [ch], inPh := false, idx := st.idx }
    | Except.error e => Except.error e

def specRun (caps : List (List Char)) :
    List Char → ScanState → Except MassMoveError ScanState
  | [], st => Except.ok st
  | ch :: rest, st =>
    match specStep caps st ch with
    | Except.ok st2 => specRun caps rest st2
    | Except.error e => Except.error e

/-- Modelled from the spec: rule 5, end of input while still inside a
placeholder resolves the pending placeholder. -/
def specFinish (caps : List (List Char)) :
    Except MassMoveError ScanState → Except MassMoveError (List Char)
  | Except.ok st =>
    if st.inPh = true then insert_match_in_filename caps st.out st.idx
    else Except.ok st.out
  | Except.error e => Except.error e

/-- Modelled from the spec: the whole five-rule template scan. -/
def specScan (caps : List (List Char)) (tpl : List Char) :
    Except MassMoveError (List Char) :=
  specFinish caps (specRun caps tpl { out := [], inPh := false, idx := 0 })

/-- Backtracking search for one wildcard capture group `([^.]*)`: `rrev` is
the reversed portion of the greedy non-dot run still claimed by the group,
`rest` the filename characters after it, and `m` matches the rest of the
compiled pattern.  The full run is tried first, then surrendered one
character at a time from the right — the greedy order of the regex engine. -/
def starLoopRev (m : List Char → Option (List (List Char))) :
    List Char → List Char → Option (List (List Char))
  | [], rest =>
    match m rest with
    | some caps => some (([] : List Char) :: caps)
    | none => none
  | ch :: rrev, rest =>
    match m rest with
    | some caps => some ((ch :: rrev).reverse :: caps)
    | none => starLoopRev m rrev (ch :: rest)

/-- Embedding of the matching engine applied to the regex built by
`pattern_to_regex` (file_matcher.rs lines 62-66): the source pattern is
escaped, so every character other than `*` matches itself literally, every
`*` becomes the greedy capture group `([^.]*)`, and the whole expression is
anchored at both ends.  The regex crate's leftmost-greedy backtracking on
this expression shape is embedded directly; `some caps` carries the text of
every capture group of the match in declaration order. -/
def globCapsGo : List Char → List Char → Option (List (List Char))
  | [], f => if f = [] then some [] else none
  | c :: p, f =>
    if c = '*' then
      starLoopRev (fun rest => globCapsGo p rest)
        (f.takeWhile (fun ch => decide (ch ≠ '.'))).reverse
        (f.dropWhile (fun ch => decide (ch ≠ '.')))
    else
      match f with
      | [] => none
      | fc :: f2 => if fc = c then globCapsGo p f2 else none

/-- Embedding of `is_file_match_pattern` (file_matcher.rs lines 69-72):
`Regex::is_match` on the compiled anchored pattern.  The source wraps the
result in `Ok`; it never fails. -/
def is_file_match_pattern (source_pattern filename : List Char) : Bool :=
  (globCapsGo source_pattern filename).isSome

/-- Embedding of `get_file_matches` (file_matcher.rs lines 75-90): the
capture groups of the unique anchored match, iterated in declaration order,
keeping a group only when it matched a non-empty span (`start != end`);
empty when the filename does not match (no iteration of `captures_iter`).
The source wraps the result in `Ok`; it never fails. -/
def get_file_matches (source_pattern filename : List Char) : List (List Char) :=
  match globCapsGo source_pattern filename with
  | some caps => caps.filter (fun s => !s.isEmpty)
  | none => []

/-- Modelled from the spec: declarative wildcard-match semantics — every
non-wildcard character matches itself literally and each `*` matches a
possibly empty run of characters none of which is `'.'`, the whole
filename being consumed (anchored at both ends). -/
inductive GlobMatch : List Char → List Char → Prop
  | nil : GlobMatch [] []
  | lit (c : Char) (p f : List Char) : c ≠ '*' → GlobMatch p f →
      GlobMatch (c :: p) (c :: f)
  | star (s : List Char) (p f : List Char) : (∀ ch ∈ s, ch ≠ '.') →
      GlobMatch p f → GlobMatch ('*' :: p) (s ++ f)

/-- Entry of a scanned directory: a name and whether the entry is a regular
file (`entry.file_type().is_file()`). -/
structure DirEntry where
  name : List Char
  isFile : Bool
  deriving DecidableEq

/-- Embedding of `collect_matched_files` (file_matcher.rs lines 107-129)
over an abstract directory listing: keep the names of regular-file entries
matching the pattern; if none match, fail with `NoFilesForPattern` carrying
the original wildcard pattern text. -/
def collect_matched_files (source_pattern : List Char) (entries : List DirEntry) :
    Except MassMoveError (List (List Char)) :=
  let files := (entries.filter fun e =>
    e.isFile && is_file_match_pattern source_pattern e.name).map DirEntry.name
  if files.isEmpty then
    Except.error (MassMoveError.NoFilesForPattern source_pattern)
  else
    Except.ok files

/-- Result record of the matcher, from file_matcher.rs lines 34-37.  The
Rust field `matches` is a reserved word in Lean and is called `caps` here. -/
structure FileWithMatches where
  filepath : List Char
  caps : List (List Char)
  deriving DecidableEq

/-- Modelled from std::path semantics (external library): `Path::join` for
the shapes arising here — an empty directory yields the filename itself,
otherwise a `/` separator is inserted unless already present. -/
def joinPath (dir file : List Char) : List Char :=
  if dir.isEmpty then file
  else if dir.getLast? = some '/' then dir ++ file
  else dir ++ '/' :: file

/-- Embedding of `get_files_with_matches` (file_matcher.rs lines 132-145):
pair every collected filename with its capture list and resolved filepath. -/
def get_files_with_matches (source_pattern source_directory : List Char)
    (entries : List DirEntry) : Except MassMoveError (List FileWithMatches) := do
  let files ← collect_matched_files source_pattern entries
  Except.ok (files.map fun f =>
    { filepath := joinPath source_directory f
      caps := get_file_matches source_pattern f })

/-- Strip trailing path separators. -/
def rstripSlash (p : List Char) : List Char :=
  (p.reverse.dropWhile (fun ch => decide (ch = '/'))).reverse

/-- Final path segment of `p` after stripping trailing separators. -/
def lastComponent (p : List Char) : List Char :=
  ((rstripSlash p).reverse.takeWhile (fun ch => decide (ch ≠ '/'))).reverse

/-- Everything before the final path segment, separator included. -/
def beforeLastComponent (p : List Char) : List Char :=
  ((rstripSlash p).reverse.dropWhile (fun ch => decide (ch ≠ '/'))).reverse

/-- Modelled from std::path semantics (external library):
`Path::file_name` — the final component, `none` for an empty path, a path
of separators only, or a final component `.` or `..`. -/
def file_name (p : List Char) : Option (List Char) :=
  if rstripSlash p = [] then none
  else if lastComponent p = ['.'] ∨ lastComponent p = ['.', '.'] then none
  else some (lastComponent p)

/-- Modelled from std::path semantics (external library): `Path::parent` —
the path without its final component, `none` for an empty path or the root;
for an absolute path whose prefix is only separators the parent is `/`. -/
def parent (p : List Char) : Option (List Char) :=
  if rstripSlash p = [] then none
  else
    let rest := rstripSlash (beforeLastComponent p)
    if rest = [] ∧ beforeLastComponent p ≠ [] then some ['/']
    else some rest

/-- State of `FileMatcher` (file_matcher.rs lines 17-20). -/
structure FileMatcher where
  source_pattern : List Char
  source_directory : List Char
  deriving DecidableEq

/-- Embedding of `FileMatcher::from_source_path` (file_matcher.rs lines
44-58): fail with `InvalidSourcePath` when the filename or the parent
cannot be derived; otherwise store the final segment as the wildcard
pattern and the parent as the source directory. -/
def from_source_path (source_path : List Char) : Except MassMoveError FileMatcher :=
  if (file_name source_path).isNone ∨ (parent source_path).isNone then
    Except.error (MassMoveError.InvalidSourcePath source_path)
  else
    Except.ok { source_pattern := (file_name source_path).getD []
                source_directory := (parent source_path).getD [] }

/-- Configuration, from config.rs: only the overwrite flag. -/
structure Config where
  force_move : Bool

/-- A pair of files to move, from file_move.rs lines 6-9.  The Rust field
names `from`/`to` collide with Lean keywords and are `fromPath`/`toPath`
here. -/
structure MoveFiles where
  fromPath : List Char
  toPath : List Char

/-- Abstract filesystem state: which paths exist, plus an oracle telling
whether the underlying `fs::rename` syscall fails for a given pair (an
external source of nondeterminism). -/
structure MoveState where
  pathEx : List Char → Bool
  renameFails : List Char → List Char → Bool

/-- Embedding of `FilesMover::correct_target_path` (file_move.rs lines
41-61): the target needs a derivable parent; a non-empty parent must exist;
without the force flag the target must not already exist. -/
def correct_target_path (cfg : Config) (st : MoveState) (target_path : List Char) :
    Except MassMoveError Unit :=
  match parent target_path with
  | none => Except.error (MassMoveError.InvalidTargetPath target_path)
  | some par =>
    if par ≠ [] ∧ st.pathEx par = false then
      Except.error (MassMoveError.DirectoryNotFound par)
    else if cfg.force_move = false ∧ st.pathEx target_path = true then
      Except.error (MassMoveError.FileAlreadyExists target_path)
    else
      Except.ok ()

/-- Effect of a successful rename on the filesystem state: the source path
stops existing, the target starts existing. -/
def applyRename (st : MoveState) (f t : List Char) : MoveState :=
  { st with pathEx := fun q => if q = t then true else if q = f then false else st.pathEx q }

/-- Embedding of `FilesMover::move_file` (file_move.rs lines 64-74):
validate the target, then rename; a failing rename reports `MoveError`
carrying the source path of that file. -/
def move_file (cfg : Config) (st : MoveState) (f t : List Char) :
    Except MassMoveError MoveState :=
  match correct_target_path cfg st t with
  | Except.error e => Except.error e
  | Except.ok _ =>
    if st.renameFails f t then Except.error (MassMoveError.MoveError f)
    else Except.ok (applyRename st f t)

/-- Embedding of `FilesMover::run` (file_move.rs lines 78-83): move the
pairs in order; the `?` operator returns the first error immediately,
leaving the state reached so far.  The final state is returned alongside
so that the filesystem effect of the partial batch is observable. -/
def run_mover (cfg : Config) : List MoveFiles → MoveState → MoveState × Option MassMoveError
  | [], st => (st, none)
  | pair :: rest, st =>
    match move_file cfg st pair.fromPath pair.toPath with
    | Except.ok st2 => run_mover cfg rest st2
    | Except.error e => (st, some e)

/-- Concrete configuration for the mover example: no forced overwrite. -/
def cfg0 : Config := { force_move := false }

/-- Concrete filesystem for the mover example: only `a` exists, and the
rename syscall fails exactly when moving from `c`. -/
def st0 : MoveState :=
  { pathEx := fun q => decide (q = "a".data)
    renameFails := fun f _ => decide (f = "c".data) }

def mv1 : MoveFiles := { fromPath := "a".data, toPath := "b".data }

def mv2 : MoveFiles := { fromPath := "c".data, toPath := "d".data }

/-- State after the first move of the example batch. -/
def st1 : MoveState := (run_mover cfg0 [mv1] st0).1

theorem hash_not_digit : ('#' : Char).isDigit = false := by decide

theorem insert_go_nil_false (c : List (List Char)) (acc : List Char) (i : Nat) :
    insert_go c [] acc false i = Except.ok acc := by
  simp [insert_go]

theorem insert_go_nil_true (c : List (List Char)) (acc : List Char) (i : Nat) :
    insert_go c [] acc true i = insert_match_in_filename c acc i := by
  simp [insert_go]

theorem insert_go_lit (c : List (List Char)) (ch : Char) (s acc : List Char) (i : Nat)
    (hch : ch ≠ '#') :
    insert_go c (ch :: s) acc false i = insert_go c s (acc ++ [ch]) false i := by
  simp [insert_go, hch]

theorem insert_go_digit (c : List (List Char)) (ch : Char) (s acc : List Char) (i : Nat)
    (hd : ch.isDigit = true) :
    insert_go c (ch :: s) acc true i =
      insert_go c s acc true (i * 10 + (ch.toNat - 48)) := by
  simp [insert_go, hd]

theorem insert_go_hash_false (c : List (List Char)) (s acc : List Char) (i : Nat) :
    insert_go c ('#' :: s) acc false i = insert_go c s acc true 0 := by
  simp [insert_go]

theorem insert_go_hash_true_ok (c : List (List Char)) (s acc acc2 : List Char) (i : Nat)
    (h : insert_match_in_filename c acc i = Except.ok acc2) :
    insert_go c ('#' :: s) acc true i = insert_go c s acc2 true 0 := by
  simp [insert_go, hash_not_digit, h]

theorem insert_go_hash_true_err (c : List (List Char)) (s acc : List Char) (i : Nat)
    (e : MassMoveError) (h : insert_match_in_filename c acc i = Except.error e) :
    insert_go c ('#' :: s) acc true i = Except.error e := by
  simp [insert_go, hash_not_digit, h]

theorem insert_go_other_ok (c : List (List Char)) (ch : Char) (s acc acc2 : List Char)
    (i : Nat) (hch : ch ≠ '#') (hd : ch.isDigit = false)
    (h : insert_match_in_filename c acc i = Except.ok acc2) :
    insert_go c (ch :: s) acc true i = insert_go c s (acc2 ++ [ch]) false 0 := by
  simp [insert_go, hch, hd, h]

theorem insert_go_other_err (c : List (List Char)) (ch : Char) (s acc : List Char)
    (i : Nat) (e : MassMoveError) (hch : ch ≠ '#') (hd : ch.isDigit = false)
    (h : insert_match_in_filename c acc i = Except.error e) :
    insert_go c (ch :: s) acc true i = Except.error e := by
  simp [insert_go, hch, hd, h]

/-- C2: for every capture list `c` and 1-based placeholder index `i`,
resolution succeeds appending `c[i-1]` exactly when `i ≠ 0` and
`i ≤ c.length`; otherwise `insert_match_in_filename` returns an
`InvalidTargetPath` error whose message names the invalid position `i`,
covering both `#0` and indices exceeding the capture count. -/
theorem C2_resolution (c : List (List Char)) (fn : List Char) (i : Nat) :
    (i ≠ 0 ∧ i ≤ c.length →
      insert_match_in_filename c fn i = Except.ok (fn ++ c.getD (i - 1) [])) ∧
    (i = 0 ∨ c.length < i →
      insert_match_in_filename c fn i = Except.error (MassMoveError.InvalidTargetPath
        ("position #".data ++ (Nat.repr i).data ++ " not exist in source path".data))) := by
  constructor
  · intro h
    simp [insert_match_in_filename, h]
  · intro h
    have hneg : ¬(i ≠ 0 ∧ i ≤ c.length) := by omega
    simp [insert_match_in_filename, hneg]

/-- Witness for C2 at concrete inputs: index 1 into a one-capture list
succeeds, index 0 fails with the message naming position 0. -/
theorem C2_resolution_witness :
    insert_match_in_filename ["a".data] "f".data 1 =
      Except.ok ("f".data ++ ["a".data].getD 0 []) ∧
    insert_match_in_filename ["a".data] "f".data 0 =
      Except.error (MassMoveError.InvalidTargetPath
        ("position #".data ++ (Nat.repr 0).data ++ " not exist in source path".data)) :=
  ⟨(C2_resolution ["a".data] "f".data 1).1 (by decide),
   (C2_resolution ["a".data] "f".data 0).2 (Or.inl rfl)⟩

theorem digitChar_toNat (d : Nat) (hd : d < 10) : (Nat.digitChar d).toNat - 48 = d := by
  interval_cases d <;> decide

theorem digitChar_isDigit (d : Nat) (hd : d < 10) : (Nat.digitChar d).isDigit = true := by
  interval_cases d <;> decide

theorem decimalChars_isDigit (i : Nat) : ∀ ch ∈ decimalChars i, ch.isDigit = true := by
  intro ch hch
  simp only [decimalChars, List.mem_map, List.mem_reverse] at hch
  obtain ⟨d, hd, rfl⟩ := hch
  exact digitChar_isDigit d (Nat.digits_lt_base (by norm_num) hd)

theorem foldl_base10_reverse (L : List Nat) :
    ∀ a : Nat, List.foldl (fun x d => x * 10 + d) a L.reverse =
      a * 10 ^ L.length + Nat.ofDigits 10 L := by
  induction L with
  | nil => intro a; simp [Nat.ofDigits_nil]
  | cons d L ih =>
    intro a
    simp only [List.reverse_cons, List.foldl_append, List.foldl_cons, List.foldl_nil, ih,
      Nat.ofDigits_cons, List.length_cons]
    ring

theorem foldl_digitChars (L : List Nat) (h : ∀ d ∈ L, d < 10) :
    ∀ k : Nat, List.foldl (fun a ch => a * 10 + (ch.toNat - 48)) k (L.map Nat.digitChar) =
      List.foldl (fun a d => a * 10 + d) k L := by
  induction L with
  | nil => intro k; rfl
  | cons d L ih =>
    intro k
    simp only [List.map_cons, List.foldl_cons]
    rw [digitChar_toNat d (h d (by simp))]
    exact ih (fun x hx => h x (by simp [hx])) _

theorem decimalChars_foldl (i k : Nat) :
    List.foldl (fun a ch => a * 10 + (ch.toNat - 48)) k (decimalChars i) =
      k * 10 ^ (Nat.digits 10 i).length + i := by
  have hlt : ∀ d ∈ (Nat.digits 10 i).reverse, d < 10 := fun d hd =>
    Nat.digits_lt_base (by norm_num) (List.mem_reverse.mp hd)
  rw [decimalChars, foldl_digitChars _ hlt, foldl_base10_reverse, Nat.ofDigits_digits]

theorem insert_go_digits (c : List (List Char)) (ds : List Char)
    (h : ∀ ch ∈ ds, ch.isDigit = true) :
    ∀ (s acc : List Char) (i : Nat),
      insert_go c (ds ++ s) acc true i =
        insert_go c s acc true
          (List.foldl (fun a ch => a * 10 + (ch.toNat - 48)) i ds) := by
  induction ds with
  | nil => intro s acc i; rfl
  | cons ch ds ih =>
    intro s acc i
    rw [List.cons_append, insert_go_digit c ch _ acc i (h ch (by simp)),
      ih (fun x hx => h x (by simp [hx]))]
    rfl

theorem renderTemplate_cons (t : Tok) (ts : List Tok) :
    renderTemplate (t :: ts) = renderTok t ++ renderTemplate ts := by
  simp [renderTemplate]

theorem substTemplate_cons (c : List (List Char)) (t : Tok) (ts : List Tok) :
    substTemplate c (t :: ts) = substTok c t ++ substTemplate c ts := by
  simp [substTemplate]

theorem insert_match_ok (c : List (List Char)) (acc : List Char) (i : Nat)
    (h1 : 1 ≤ i) (h2 : i ≤ c.length) :
    insert_match_in_filename c acc i = Except.ok (acc ++ c.getD (i - 1) []) := by
  have h : i ≠ 0 ∧ i ≤ c.length := ⟨by omega, h2⟩
  simp [insert_match_in_filename, h]

theorem insert_go_render (c : List (List Char)) (ts : List Tok) :
    ∀ acc : List Char,
      (∀ t ∈ ts, tokOK c.length t = true) → noDigitAfterPh ts = true →
      insert_go c (renderTemplate ts) acc false 0 =
        Except.ok (acc ++ substTemplate c ts) := by
  induction ts with
  | nil =>
    intro acc _ _
    simp [renderTemplate, substTemplate, insert_go_nil_false]
  | cons t ts ih =>
    intro acc hok hnd
    cases t with
    | lit ch =>
      have hch : ch ≠ '#' := by
        have := hok (Tok.lit ch) (by simp)
        simpa [tokOK] using this
      have hok' : ∀ t ∈ ts, tokOK c.length t = true :=
        fun t ht => hok t (List.mem_cons_of_mem _ ht)
      have hnd' : noDigitAfterPh ts = true := by
        simpa [noDigitAfterPh] using hnd
      rw [renderTemplate_cons, substTemplate_cons]
      simp only [renderTok, substTok, List.singleton_append]
      rw [insert_go_lit c ch _ acc 0 hch, ih (acc ++ [ch]) hok' hnd',
        List.append_assoc]
      simp
    | ph i =>
      have hbounds := hok (Tok.ph i) (by simp)
      simp only [tokOK, Bool.and_eq_true, decide_eq_true_eq] at hbounds
      obtain ⟨h1, h2⟩ := hbounds
      have hok' : ∀ t ∈ ts, tokOK c.length t = true :=
        fun t ht => hok t (List.mem_cons_of_mem _ ht)
      have hres := insert_match_ok c acc i h1 h2
      rw [renderTemplate_cons, substTemplate_cons]
      simp only [renderTok, substTok, List.cons_append]
      rw [insert_go_hash_false, insert_go_digits c _ (decimalChars_isDigit i),
        decimalChars_foldl]
      simp only [Nat.zero_mul, Nat.zero_add]
      cases ts with
      | nil =>
        simp [renderTemplate, substTemplate, insert_go_nil_true, hres]
      | cons t2 ts2 =>
        cases t2 with
        | lit ch2 =>
          have hch2 : ch2 ≠ '#' := by
            have := hok' (Tok.lit ch2) (by simp)
            simpa [tokOK] using this
          have hnd2 : ch2.isDigit = false ∧ noDigitAfterPh (Tok.lit ch2 :: ts2) = true := by
            have h := hnd
            simp only [noDigitAfterPh, Bool.and_eq_true, Bool.not_eq_true'] at h
            exact h
          rw [renderTemplate_cons]
          simp only [renderTok, List.singleton_append]
          rw [insert_go_other_ok c ch2 _ acc _ i hch2 hnd2.1 hres]
          have hchain := ih (acc ++ c.getD (i - 1) []) hok' hnd2.2
          rw [renderTemplate_cons] at hchain
          simp only [renderTok, List.singleton_append] at hchain
          rw [insert_go_lit c ch2 _ _ 0 hch2] at hchain
          rw [hchain, substTemplate_cons]
          simp only [substTok, List.append_assoc, List.singleton_append]
        | ph j =>
          have hnd2 : noDigitAfterPh (Tok.ph j :: ts2) = true := by
            simpa only [noDigitAfterPh] using hnd
          rw [renderTemplate_cons]
          simp only [renderTok, List.cons_append]
          rw [insert_go_hash_true_ok c _ acc _ i hres]
          have hchain := ih (acc ++ c.getD (i - 1) []) hok' hnd2
          rw [renderTemplate_cons] at hchain
          simp only [renderTok, List.cons_append] at hchain
          rw [insert_go_hash_false] at hchain
          rw [hchain, substTemplate_cons]
          simp only [substTok, List.append_assoc]

/-- C1 counterexample: the template made only of the placeholders `#1` and
`#2` (each used once) with the two capture lists `["ab","c"]` and
`["a","bc"]` — differing only in capture values, with unequal substituted
values — produces the same output `"abc"`, so the substitution is not
injective in the capture values. -/
theorem C1_counterexample :
    insert_matches_in_target ["ab".data, "c".data] "#1#2".data =
        Except.ok "abc".data ∧
    insert_matches_in_target ["a".data, "bc".data] "#1#2".data =
        Except.ok "abc".data ∧
    ["ab".data, "c".data] ≠ ["a".data, "bc".data] := by
  refine ⟨rfl, rfl, by decide⟩

/-- C1 amended: for every capture list `c` with `n` entries and every
template consisting only of placeholders `#1..#n` (each used at most once,
in any order) and literal characters (no literal `#`, and no literal digit
directly behind a placeholder, which the scanner would absorb into the
index), `insert_matches_in_target` succeeds and returns the pure textual
substitution.  The injectivity clause of the original claim is dropped. -/
theorem C1_substitution (c : List (List Char)) (ts : List Tok)
    (h : WFTemplate c.length ts) :
    insert_matches_in_target c (renderTemplate ts) =
      Except.ok (substTemplate c ts) := by
  have := insert_go_render c ts [] h.1 h.2.2
  simpa [insert_matches_in_target] using this

/-- Witness for C1 at a concrete well-formed template `f#1-#2`. -/
theorem C1_substitution_witness :
    insert_matches_in_target ["v1".data, "x".data]
        (renderTemplate [Tok.lit 'f', Tok.ph 1, Tok.lit '-', Tok.ph 2]) =
      Except.ok (substTemplate ["v1".data, "x".data]
        [Tok.lit 'f', Tok.ph 1, Tok.lit '-', Tok.ph 2]) :=
  C1_substitution ["v1".data, "x".data]
    [Tok.lit 'f', Tok.ph 1, Tok.lit '-', Tok.ph 2]
    (by unfold WFTemplate; decide)

theorem insert_go_eq_spec (c : List (List Char)) (tpl : List Char) :
    ∀ (acc : List Char) (b : Bool) (i j : Nat), (b = true → i = j) →
      insert_go c tpl acc b i =
        specFinish c (specRun c tpl { out := acc, inPh := b, idx := j }) := by
  induction tpl with
  | nil =>
    intro acc b i j hb
    cases b with
    | false => simp [specRun, specFinish, insert_go_nil_false]
    | true => rw [hb rfl]; simp [specRun, specFinish, insert_go_nil_true]
  | cons ch rest ih =>
    intro acc b i j hb
    cases b with
    | false =>
      by_cases hch : ch = '#'
      · subst hch
        rw [insert_go_hash_false]
        have hstep : specStep c { out := acc, inPh := false, idx := j } '#' =
            Except.ok { out := acc, inPh := true, idx := 0 } := by
          simp [specStep]
        rw [specRun, hstep]
        exact ih acc true 0 0 (fun _ => rfl)
      · rw [insert_go_lit c ch rest acc i hch]
        have hstep : specStep c { out := acc, inPh := false, idx := j } ch =
            Except.ok { out := acc ++ [ch], inPh := false, idx := j } := by
          simp [specStep, hch]
        rw [specRun, hstep]
        exact ih (acc ++ [ch]) false i j (by simp)
    | true =>
      rw [hb rfl]
      by_cases hch : ch = '#'
      · subst hch
        cases hres : insert_match_in_filename c acc j with
        | ok acc2 =>
          rw [insert_go_hash_true_ok c rest acc acc2 j hres]
          have hstep : specStep c { out := acc, inPh := true, idx := j } '#' =
              Except.ok { out := acc2, inPh := true, idx := 0 } := by
            simp [specStep, hres]
          rw [specRun, hstep]
          exact ih acc2 true 0 0 (fun _ => rfl)
        | error e =>
          rw [insert_go_hash_true_err c rest acc j e hres]
          have hstep : specStep c { out := acc, inPh := true, idx := j } '#' =
              Except.error e := by
            simp [specStep, hres]
          rw [specRun, hstep]
          rfl
      · by_cases hd : ch.isDigit = true
        · rw [insert_go_digit c ch rest acc j hd]
          have hstep : specStep c { out := acc, inPh := true, idx := j } ch =
              Except.ok { out := acc, inPh := true, idx := j * 10 + (ch.toNat - 48) } := by
            simp [specStep, hch, hd]
          rw [specRun, hstep]
          exact ih acc true _ _ (fun _ => rfl)
        · have hd' : ch.isDigit = false := by simpa using hd
          cases hres : insert_match_in_filename c acc j with
          | ok acc2 =>
            rw [insert_go_other_ok c ch rest acc acc2 j hch hd' hres]
            have hstep : specStep c { out := acc, inPh := true, idx := j } ch =
                Except.ok { out := acc2 ++ [ch], inPh := false, idx := j } := by
              simp [specStep, hch, hd', hres]
            rw [specRun, hstep]
            exact ih (acc2 ++ [ch]) false 0 j (by simp)
          | error e =>
            rw [insert_go_other_err c ch rest acc j e hch hd' hres]
            have hstep : specStep c { out := acc, inPh := true, idx := j } ch =
                Except.error e := by
              simp [specStep, hch, hd', hres]
            rw [specRun, hstep]
            rfl

/-- C3: the interpolator's character scan agrees everywhere with the
five-priority-rule scanner written from the spec — literals outside a
placeholder copied, digits inside accumulated as `index*10 + digit`
(multi-digit placeholders), a second `#` resolving the pending placeholder
and starting a new one, any other character resolving then being appended,
and end of input resolving a pending placeholder. -/
theorem C3_scan_follows_spec (caps : List (List Char)) (tpl : List Char) :
    insert_matches_in_target caps tpl = specScan caps tpl :=
  insert_go_eq_spec caps tpl [] false 0 0 (by simp)

theorem insert_match_cases (c : List (List Char)) (acc : List Char) (i : Nat) :
    (∃ r, insert_match_in_filename c acc i = Except.ok r) ∨
    (∃ msg, insert_match_in_filename c acc i =
      Except.error (MassMoveError.InvalidTargetPath msg)) := by
  by_cases h : i ≠ 0 ∧ i ≤ c.length
  · exact Or.inl ⟨acc ++ c.getD (i - 1) [], by simp [insert_match_in_filename, h]⟩
  · exact Or.inr ⟨"position #".data ++ (Nat.repr i).data ++
      " not exist in source path".data, by simp [insert_match_in_filename, h]⟩

theorem insert_match_zero (c : List (List Char)) (acc : List Char) :
    ∃ msg, insert_match_in_filename c acc 0 =
      Except.error (MassMoveError.InvalidTargetPath msg) :=
  ⟨"position #".data ++ (Nat.repr 0).data ++ " not exist in source path".data,
    by simp [insert_match_in_filename]⟩

theorem insert_go_cons_cases (c : List (List Char)) (ch : Char) (s acc : List Char)
    (b : Bool) (i : Nat) :
    (∃ acc2 b2 i2, insert_go c (ch :: s) acc b i = insert_go c s acc2 b2 i2) ∨
    (∃ msg, insert_go c (ch :: s) acc b i =
      Except.error (MassMoveError.InvalidTargetPath msg)) := by
  cases b with
  | false =>
    by_cases hch : ch = '#'
    · subst hch
      exact Or.inl ⟨acc, true, 0, insert_go_hash_false c s acc i⟩
    · exact Or.inl ⟨acc ++ [ch], false, i, insert_go_lit c ch s acc i hch⟩
  | true =>
    by_cases hch : ch = '#'
    · subst hch
      rcases insert_match_cases c acc i with ⟨r, hr⟩ | ⟨msg, hm⟩
      · exact Or.inl ⟨r, true, 0, insert_go_hash_true_ok c s acc r i hr⟩
      · exact Or.inr ⟨msg, insert_go_hash_true_err c s acc i _ hm⟩
    · by_cases hd : ch.isDigit = true
      · exact Or.inl ⟨acc, true, _, insert_go_digit c ch s acc i hd⟩
      · have hd' : ch.isDigit = false := by simpa using hd
        rcases insert_match_cases c acc i with ⟨r, hr⟩ | ⟨msg, hm⟩
        · exact Or.inl ⟨r ++ [ch], false, 0, insert_go_other_ok c ch s acc r i hch hd' hr⟩
        · exact Or.inr ⟨msg, insert_go_other_err c ch s acc i _ hch hd' hm⟩

theorem insert_go_trailing_hash (c : List (List Char)) :
    ∀ (s acc : List Char) (b : Bool) (i : Nat),
      ∃ msg, insert_go c (s ++ ['#']) acc b i =
        Except.error (MassMoveError.InvalidTargetPath msg) := by
  intro s
  induction s with
  | nil =>
    intro acc b i
    cases b with
    | false =>
      rw [List.nil_append, insert_go_hash_false, insert_go_nil_true]
      exact insert_match_zero c acc
    | true =>
      rcases insert_match_cases c acc i with ⟨r, hr⟩ | ⟨msg, hm⟩
      · rw [List.nil_append, insert_go_hash_true_ok c [] acc r i hr, insert_go_nil_true]
        exact insert_match_zero c r
      · exact ⟨msg, by rw [List.nil_append, insert_go_hash_true_err c [] acc i _ hm]⟩
  | cons ch s ih =>
    intro acc b i
    rcases insert_go_cons_cases c ch (s ++ ['#']) acc b i with
      ⟨acc2, b2, i2, heq⟩ | ⟨msg, hm⟩
    · rw [List.cons_append, heq]
      exact ih acc2 b2 i2
    · exact ⟨msg, by rw [List.cons_append]; exact hm⟩

theorem insert_go_double_hash (c : List (List Char)) :
    ∀ (s t acc : List Char) (b : Bool) (i : Nat),
      ∃ msg, insert_go c (s ++ '#' :: '#' :: t) acc b i =
        Except.error (MassMoveError.InvalidTargetPath msg) := by
  intro s
  induction s with
  | nil =>
    intro t acc b i
    cases b with
    | false =>
      rw [List.nil_append, insert_go_hash_false]
      rcases insert_match_zero c acc with ⟨msg, hm⟩
      exact ⟨msg, by rw [insert_go_hash_true_err c t acc 0 _ hm]⟩
    | true =>
      rcases insert_match_cases c acc i with ⟨r, hr⟩ | ⟨msg, hm⟩
      · rw [List.nil_append, insert_go_hash_true_ok c ('#' :: t) acc r i hr]
        rcases insert_match_zero c r with ⟨msg, hm⟩
        exact ⟨msg, by rw [insert_go_hash_true_err c t r 0 _ hm]⟩
      · exact ⟨msg, by rw [List.nil_append, insert_go_hash_true_err c ('#' :: t) acc i _ hm]⟩
  | cons ch s ih =>
    intro t acc b i
    rcases insert_go_cons_cases c ch (s ++ '#' :: '#' :: t) acc b i with
      ⟨acc2, b2, i2, heq⟩ | ⟨msg, hm⟩
    · rw [List.cons_append, heq]
      exact ih t acc2 b2 i2
    · exact ⟨msg, by rw [List.cons_append]; exact hm⟩

/-- C10: for every capture list, a template whose final character is the
placeholder marker, or containing two adjacent markers `##`, always makes
`insert_matches_in_target` return an `InvalidTargetPath` error (the scanner
resolves a placeholder whose accumulated index is still 0), so a literal
`#` can never appear in a resolved target. -/
theorem C10_hash_always_error (caps : List (List Char)) (tpl : List Char)
    (h : (∃ s, tpl = s ++ ['#']) ∨ (∃ s t, tpl = s ++ '#' :: '#' :: t)) :
    ∃ msg, insert_matches_in_target caps tpl =
      Except.error (MassMoveError.InvalidTargetPath msg) := by
  rcases h with ⟨s, rfl⟩ | ⟨s, t, rfl⟩
  · exact insert_go_trailing_hash caps s [] false 0
  · exact insert_go_double_hash caps s t [] false 0

/-- Witness for C10: the concrete template `ab#` errors with capture list
`["a"]`. -/
theorem C10_hash_always_error_witness :
    ∃ msg, insert_matches_in_target ["a".data] "ab#".data =
      Except.error (MassMoveError.InvalidTargetPath msg) :=
  C10_hash_always_error ["a".data] "ab#".data (Or.inl ⟨"ab".data, by decide⟩)

theorem takeWhile_append_all (q : Char → Bool) :
    ∀ s f : List Char, (∀ ch ∈ s, q ch = true) →
      (s ++ f).takeWhile q = s ++ f.takeWhile q := by
  intro s
  induction s with
  | nil => intro f _; rfl
  | cons a s ih =>
    intro f h
    have ha : q a = true := h a (by simp)
    simp only [List.cons_append, List.takeWhile_cons_of_pos ha]
    rw [ih f (fun x hx => h x (by simp [hx]))]

theorem dropWhile_append_all (q : Char → Bool) :
    ∀ s f : List Char, (∀ ch ∈ s, q ch = true) →
      (s ++ f).dropWhile q = f.dropWhile q := by
  intro s
  induction s with
  | nil => intro f _; rfl
  | cons a s ih =>
    intro f h
    have ha : q a = true := h a (by simp)
    simp only [List.cons_append, List.dropWhile_cons_of_pos ha]
    exact ih f (fun x hx => h x (by simp [hx]))

theorem starLoopRev_eq_some (m : List Char → Option (List (List Char))) :
    ∀ (rrev rest : List Char) (out : List (List Char)),
      starLoopRev m rrev rest = some out →
      ∃ cap caps tail, out = cap :: caps ∧ m (tail ++ rest) = some caps ∧
        rrev.reverse = cap ++ tail := by
  intro rrev
  induction rrev with
  | nil =>
    intro rest out h
    simp only [starLoopRev] at h
    cases hm : m rest with
    | none => rw [hm] at h; exact absurd h (by simp)
    | some caps =>
      rw [hm] at h
      simp only [Option.some.injEq] at h
      exact ⟨[], caps, [], h.symm, by simpa using hm, by simp⟩
  | cons ch rrev ih =>
    intro rest out h
    simp only [starLoopRev] at h
    cases hm : m rest with
    | some caps =>
      rw [hm] at h
      simp only [Option.some.injEq] at h
      exact ⟨(ch :: rrev).reverse, caps, [], h.symm, by simpa using hm, by simp⟩
    | none =>
      rw [hm] at h
      obtain ⟨cap, caps, tail, h1, h2, h3⟩ := ih (ch :: rest) out h
      refine ⟨cap, caps, tail ++ [ch], h1, ?_, ?_⟩
      · rw [List.append_assoc, List.singleton_append]; exact h2
      · rw [List.reverse_cons, h3, List.append_assoc]

theorem starLoopRev_isSome (m : List Char → Option (List (List Char))) :
    ∀ (rrev rest pre suf : List Char), rrev.reverse = pre ++ suf →
      (m (suf ++ rest)).isSome = true → (starLoopRev m rrev rest).isSome = true := by
  intro rrev
  induction rrev with
  | nil =>
    intro rest pre suf hsplit hm
    have hnil : pre = [] ∧ suf = [] := List.append_eq_nil.mp hsplit.symm
    obtain ⟨rfl, rfl⟩ := hnil
    simp only [List.nil_append] at hm
    simp only [starLoopRev]
    cases hm0 : m rest with
    | none => rw [hm0] at hm; simp at hm
    | some caps => simp
  | cons ch rrev ih =>
    intro rest pre suf hsplit hm
    cases hm0 : m rest with
    | some caps => simp [starLoopRev, hm0]
    | none =>
      have hrev : ch :: rrev = suf.reverse ++ pre.reverse := by
        have := congrArg List.reverse hsplit
        simpa [List.reverse_append] using this
      cases hsr : suf.reverse with
      | nil =>
        have : suf = [] := by simpa using congrArg List.reverse hsr
        subst this
        simp only [List.nil_append] at hm
        rw [hm0] at hm; simp at hm
      | cons a as =>
        rw [hsr] at hrev
        simp only [List.cons_append, List.cons.injEq] at hrev
        obtain ⟨rfl, hrr⟩ := hrev
        have hsuf : suf = as.reverse ++ [ch] := by
          have := congrArg List.reverse hsr
          simpa using this
        have hpre : rrev.reverse = pre ++ as.reverse := by
          rw [hrr]
          simp [List.reverse_append]
        have hm2 : (m (as.reverse ++ (ch :: rest))).isSome = true := by
          have : suf ++ rest = as.reverse ++ (ch :: rest) := by
            rw [hsuf, List.append_assoc, List.singleton_append]
          rw [← this]; exact hm
        have := ih (ch :: rest) pre as.reverse hpre hm2
        simp only [starLoopRev]
        rw [hm0]
        exact this

theorem globCapsGo_sound :
    ∀ (p f : List Char) (caps : List (List Char)),
      globCapsGo p f = some caps → GlobMatch p f := by
  intro p
  induction p with
  | nil =>
    intro f caps h
    simp only [globCapsGo] at h
    by_cases hf : f = []
    · subst hf; exact GlobMatch.nil
    · simp [hf] at h
  | cons c p ih =>
    intro f caps h
    by_cases hc : c = '*'
    · subst hc
      simp only [globCapsGo, if_pos rfl] at h
      obtain ⟨cap, caps2, tail, h1, h2, h3⟩ := starLoopRev_eq_some _ _ _ _ h
      rw [List.reverse_reverse] at h3
      have hmem : ∀ ch ∈ cap, ch ≠ '.' := by
        intro ch hch
        have hin : ch ∈ f.takeWhile (fun ch => decide (ch ≠ '.')) := by
          rw [h3]; exact List.mem_append_left tail hch
        have := List.mem_takeWhile_imp hin
        simpa using this
      have hGM : GlobMatch p (tail ++ f.dropWhile (fun ch => decide (ch ≠ '.'))) :=
        ih _ _ h2
      have hstar := GlobMatch.star cap p _ hmem hGM
      have hf : cap ++ (tail ++ f.dropWhile (fun ch => decide (ch ≠ '.'))) = f := by
        rw [← List.append_assoc, ← h3, List.takeWhile_append_dropWhile]
      rw [hf] at hstar
      exact hstar
    · simp only [globCapsGo, if_neg hc] at h
      cases f with
      | nil => simp at h
      | cons fc f2 =>
        by_cases hfc : fc = c
        · subst hfc
          simp only [if_pos rfl] at h
          exact GlobMatch.lit fc p f2 hc (ih f2 caps h)
        · simp [hfc] at h

theorem globCapsGo_complete :
    ∀ (p f : List Char), GlobMatch p f → (globCapsGo p f).isSome = true := by
  intro p f h
  induction h with
  | nil => simp [globCapsGo]
  | lit c p f hc hm ih =>
    simp only [globCapsGo, if_neg hc]
    simpa using ih
  | star s p f hs hm ih =>
    have hq : ∀ ch ∈ s, (fun ch => decide (ch ≠ '.')) ch = true := by
      intro ch hch
      simpa using hs ch hch
    simp only [globCapsGo, if_pos rfl]
    rw [takeWhile_append_all _ s f hq, dropWhile_append_all _ s f hq]
    apply starLoopRev_isSome _ _ _ s (f.takeWhile (fun ch => decide (ch ≠ '.')))
    · rw [List.reverse_reverse]
    · rw [List.takeWhile_append_dropWhile]
      exact ih

/-- C4: `is_file_match_pattern` returns true exactly when the filename,
consumed in its entirety (anchored at both ends), agrees with the wildcard
pattern under the semantics in which every non-wildcard character matches
itself literally and each `*` matches a possibly empty run of characters
none of which is `'.'`. -/
theorem C4_match_iff_glob (p f : List Char) :
    is_file_match_pattern p f = true ↔ GlobMatch p f := by
  constructor
  · intro h
    rw [is_file_match_pattern, Option.isSome_iff_exists] at h
    obtain ⟨caps, hcaps⟩ := h
    exact globCapsGo_sound p f caps hcaps
  · intro h
    rw [is_file_match_pattern]
    exact globCapsGo_complete p f h

theorem globCapsGo_inv :
    ∀ (p f : List Char) (caps : List (List Char)), globCapsGo p f = some caps →
      caps.length = p.count '*' ∧
      ∀ m ∈ caps, (∀ ch ∈ m, ch ≠ '.') ∧ ∃ u v, f = u ++ m ++ v := by
  intro p
  induction p with
  | nil =>
    intro f caps h
    simp only [globCapsGo] at h
    by_cases hf : f = []
    · subst hf
      simp only [if_true, reduceIte, Option.some.injEq] at h
      subst h
      simp
    · simp [hf] at h
  | cons c p ih =>
    intro f caps h
    by_cases hc : c = '*'
    · subst hc
      simp only [globCapsGo, if_pos rfl] at h
      obtain ⟨cap, caps2, tail, rfl, h2, h3⟩ := starLoopRev_eq_some _ _ _ _ h
      rw [List.reverse_reverse] at h3
      obtain ⟨hlen, hrest⟩ := ih _ _ h2
      have hftot : f = cap ++ (tail ++ f.dropWhile (fun ch => decide (ch ≠ '.'))) := by
        rw [← List.append_assoc, ← h3, List.takeWhile_append_dropWhile]
      refine ⟨by simp [List.count_cons, hlen], ?_⟩
      intro m hm
      rcases List.mem_cons.mp hm with rfl | hm2
      · constructor
        · intro ch hch
          have hin : ch ∈ f.takeWhile (fun ch => decide (ch ≠ '.')) := by
            rw [h3]; exact List.mem_append_left tail hch
          have := List.mem_takeWhile_imp hin
          simpa using this
        · exact ⟨[], tail ++ f.dropWhile (fun ch => decide (ch ≠ '.')),
            by rw [List.nil_append]; exact hftot⟩
      · obtain ⟨hdot, u, v, hf2⟩ := hrest m hm2
        refine ⟨hdot, cap ++ u, v, ?_⟩
        rw [hftot, hf2]
        simp [List.append_assoc]
    · simp only [globCapsGo, if_neg hc] at h
      cases f with
      | nil => simp at h
      | cons fc f2 =>
        by_cases hfc : fc = c
        · subst hfc
          simp only [if_pos rfl] at h
          obtain ⟨hlen, hrest⟩ := ih f2 caps h
          refine ⟨by simp [List.count_cons, hc, hlen], ?_⟩
          intro m hm
          obtain ⟨hdot, u, v, hf2⟩ := hrest m hm
          exact ⟨hdot, fc :: u, v, by rw [hf2]; simp⟩
        · simp [hfc] at h

/-- C9: every capture returned by `get_file_matches` is a non-empty
substring of the filename containing no `'.'`, and the number of returned
captures is at most the number of `*` occurrences in the pattern. -/
theorem C9_capture_invariants (p f : List Char) :
    (∀ m ∈ get_file_matches p f,
        m ≠ [] ∧ (∀ ch ∈ m, ch ≠ '.') ∧ ∃ u v, f = u ++ m ++ v) ∧
    (get_file_matches p f).length ≤ p.count '*' := by
  cases hg : globCapsGo p f with
  | none => simp [get_file_matches, hg]
  | some caps =>
    obtain ⟨hlen, hrest⟩ := globCapsGo_inv p f caps hg
    constructor
    · intro m hm
      simp only [get_file_matches, hg] at hm
      have hmem := List.mem_filter.mp hm
      refine ⟨by simpa using hmem.2, (hrest m hmem.1).1, (hrest m hmem.1).2⟩
    · simp only [get_file_matches, hg]
      rw [← hlen]
      exact List.length_filter_le _ _

/-- Witness for C9: the capture `backend` of pattern `*.*` against
`backend.tar`. -/
theorem C9_capture_invariants_witness :
    "backend".data ≠ [] ∧ (∀ ch ∈ "backend".data, ch ≠ '.') ∧
      ∃ u v, "backend.tar".data = u ++ "backend".data ++ v :=
  (C9_capture_invariants "*.*".data "backend.tar".data).1 "backend".data (by decide)

/-- C5: `get_file_matches` is the list of capture-group texts of the match
in left-to-right declaration order with the empty-span groups omitted (a
sublist of the full group list), and on the spec's concrete examples it
returns exactly the stated capture lists. -/
theorem C5_capture_extraction :
    (∀ (p f : List Char) (caps : List (List Char)), globCapsGo p f = some caps →
        get_file_matches p f = caps.filter (fun s => !s.isEmpty) ∧
        List.Sublist (get_file_matches p f) caps) ∧
    get_file_matches "*.*".data "backend.tar".data =
      ["backend".data, "tar".data] ∧
    get_file_matches "*file*.png".data "some_file_1.png".data =
      ["some_".data, "_1".data] ∧
    get_file_matches "*file*.png".data "file_2.png".data = ["_2".data] ∧
    get_file_matches "*file*.png".data "file.png".data = [] := by
  refine ⟨?_, by rfl, by rfl, by rfl, by rfl⟩
  intro p f caps h
  constructor
  · simp [get_file_matches, h]
  · simp only [get_file_matches, h]
    exact List.filter_sublist _

/-- Witness for C5's quantified part at pattern `*.*` and filename
`backend.tar`. -/
theorem C5_capture_extraction_witness :
    get_file_matches "*.*".data "backend.tar".data =
        (["backend".data, "tar".data].filter (fun s => !s.isEmpty)) ∧
      List.Sublist (get_file_matches "*.*".data "backend.tar".data)
        ["backend".data, "tar".data] :=
  C5_capture_extraction.1 "*.*".data "backend.tar".data
    ["backend".data, "tar".data] (by decide)

/-- C6: when no regular-file entry of the scanned directory matches the
compiled pattern, `collect_matched_files` — and hence
`get_files_with_matches` — fails with `NoFilesForPattern` carrying the
original wildcard pattern text, rather than returning an empty result. -/
theorem C6_no_files_error (pat dir : List Char) (entries : List DirEntry)
    (h : ∀ e ∈ entries, e.isFile = true → is_file_match_pattern pat e.name = false) :
    collect_matched_files pat entries =
        Except.error (MassMoveError.NoFilesForPattern pat) ∧
    get_files_with_matches pat dir entries =
        Except.error (MassMoveError.NoFilesForPattern pat) := by
  have hfilter : entries.filter
      (fun e => e.isFile && is_file_match_pattern pat e.name) = [] := by
    rw [List.filter_eq_nil_iff]
    intro e he
    cases hef : e.isFile with
    | false => simp [hef]
    | true => simp [hef, h e he hef]
  have hcoll : collect_matched_files pat entries =
      Except.error (MassMoveError.NoFilesForPattern pat) := by
    simp [collect_matched_files, hfilter]
  refine ⟨hcoll, ?_⟩
  simp only [get_files_with_matches, hcoll]
  rfl

/-- Witness for C6: an empty directory with pattern `file-*.txt`. -/
theorem C6_no_files_error_witness :
    collect_matched_files "file-*.txt".data [] =
        Except.error (MassMoveError.NoFilesForPattern "file-*.txt".data) ∧
    get_files_with_matches "file-*.txt".data [] [] =
        Except.error (MassMoveError.NoFilesForPattern "file-*.txt".data) :=
  C6_no_files_error "file-*.txt".data [] [] (by simp)

/-- C7: `from_source_path` fails with `InvalidSourcePath` exactly when the
path has no derivable final filename component or no derivable parent —
in particular for the empty string and for paths consisting only of
separators — and for every other path it succeeds, storing the final
segment as the wildcard pattern and the parent as the source directory. -/
theorem C7_source_path (p : List Char) :
    (from_source_path p = Except.error (MassMoveError.InvalidSourcePath p) ↔
      (file_name p).isNone = true ∨ (parent p).isNone = true) ∧
    ((∀ ch ∈ p, ch = '/') →
      from_source_path p = Except.error (MassMoveError.InvalidSourcePath p)) ∧
    (∀ fn d, file_name p = some fn → parent p = some d →
      from_source_path p =
        Except.ok { source_pattern := fn, source_directory := d }) := by
  refine ⟨?_, ?_, ?_⟩
  · constructor
    · intro h
      by_contra hno
      push_neg at hno
      rw [from_source_path, if_neg (by
        intro hor
        rcases hor with h1 | h1
        · exact absurd h1 (by simpa using hno.1)
        · exact absurd h1 (by simpa using hno.2))] at h
      exact absurd h (by simp)
    · intro h
      rw [from_source_path, if_pos (by
        rcases h with h1 | h1
        · exact Or.inl (by simpa using h1)
        · exact Or.inr (by simpa using h1))]
  · intro h
    have hstrip : rstripSlash p = [] := by
      rw [rstripSlash, List.reverse_eq_nil_iff, List.dropWhile_eq_nil_iff]
      intro a ha
      have := h a (List.mem_reverse.mp ha)
      simp [this]
    have hfn : (file_name p).isNone = true := by
      rw [file_name, if_pos hstrip]; rfl
    rw [from_source_path, if_pos (Or.inl hfn)]
  · intro fn d hfn hd
    have h1 : (file_name p).isNone = false := by rw [hfn]; rfl
    have h2 : (parent p).isNone = false := by rw [hd]; rfl
    rw [from_source_path, if_neg (by simp [h1, h2])]
    rw [hfn, hd]
    rfl

/-- Witness for C7: the all-separator path `/` fails, and `a/b` succeeds
splitting into pattern `b` and directory `a`. -/
theorem C7_source_path_witness :
    from_source_path "/".data =
        Except.error (MassMoveError.InvalidSourcePath "/".data) ∧
    from_source_path "a/b".data =
        Except.ok { source_pattern := "b".data, source_directory := "a".data } :=
  ⟨(C7_source_path "/".data).2.1 (by decide),
   (C7_source_path "a/b".data).2.2 "b".data "a".data (by decide) (by decide)⟩

/-- C8: `FilesMover::run` processes the pairs strictly in order and halts at
the first error — after a prefix of successful moves reaching state `st2`,
a failing pair returns its error immediately, no later pair is touched, and
the final state is exactly `st2` (already-moved files stay moved, no
rollback); moreover if the failing pair passed target validation, its error
is `MoveError` naming that pair's source file. -/
theorem C8_halt_first_error (cfg : Config) (ps qs : List MoveFiles) (pr : MoveFiles)
    (st st2 : MoveState) (e : MassMoveError)
    (h1 : run_mover cfg ps st = (st2, none))
    (h2 : move_file cfg st2 pr.fromPath pr.toPath = Except.error e) :
    run_mover cfg (ps ++ pr :: qs) st = (st2, some e) ∧
    (∀ u, correct_target_path cfg st2 pr.toPath = Except.ok u →
      e = MassMoveError.MoveError pr.fromPath) := by
  constructor
  · induction ps generalizing st with
    | nil =>
      simp only [run_mover] at h1
      have hst : st = st2 := congrArg Prod.fst h1
      subst hst
      simp only [List.nil_append, run_mover, h2]
    | cons a ps ih =>
      simp only [run_mover] at h1 ⊢
      cases hmv : move_file cfg st a.fromPath a.toPath with
      | ok st3 =>
        rw [hmv] at h1
        simp only [List.cons_append, run_mover, hmv]
        exact ih st3 h1
      | error e2 =>
        rw [hmv] at h1
        simp at h1
  · intro u hok
    rw [move_file, hok] at h2
    by_cases hrf : st2.renameFails pr.fromPath pr.toPath
    · rw [if_pos hrf] at h2
      exact (Except.error.injEq .. ▸ h2).symm
    · rw [if_neg hrf] at h2
      exact absurd h2 (by simp)

/-- Witness for C8: a two-pair batch where the first rename succeeds and
the second fails; the run stops with `MoveError "c"` and the state keeps
the first move applied. -/
theorem C8_halt_first_error_witness :
    run_mover cfg0 ([mv1] ++ mv2 :: []) st0 =
        (st1, some (MassMoveError.MoveError "c".data)) ∧
    (∀ u, correct_target_path cfg0 st1 mv2.toPath = Except.ok u →
      MassMoveError.MoveError "c".data = MassMoveError.MoveError mv2.fromPath) :=
  C8_halt_first_error cfg0 [mv1] [] mv2 st0 st1
    (MassMoveError.MoveError "c".data) rfl rfl
